import Mathlib

/-!
Verification of the clang-tidy check `misc-fmt-argument-mismatch`.

A shallow embedding of `clang-tools-extra/clang-tidy/misc/FmtArgumentMismatchCheck.cpp`:
the template scanner (`fmt::extractFields` with `ArgId::parse` and
`ReplacementField::parse`) and the cross-check of the parsed fields against the call
arguments (`FmtArgumentMismatchCheck::matchReplacements`).

Conventions of the embedding.
* A `StringRef` is a `List Char`, one list element per `char`; iterators into it are
  offsets of type `Nat` counted from `Str.begin()`.
* `Expected<T>` is `Except ParseError T`.
* `diag(...)` calls are collected, in emission order, as a list of `Finding`.
* Two things the code depends on are not part of the program text and are taken as
  parameters: the integer conversion `StringRef::getAsInteger` and the value that a
  read of union member `Index` produces while member `Named` is the one stored.
-/

namespace fmt

/-- Error carrier `ParseError(ErrorMsg, Pos = 0)`. -/
structure ParseError where
  ErrorMsg : String
  Pos : Nat := 0
deriving DecidableEq, Repr

/-- The test `std::isdigit` in the default "C" locale: the ten decimal digits. -/
def isdigit (c : Char) : Bool := c.isDigit

/-- The test `std::isalpha` in the default "C" locale: the letters a-z and A-Z. -/
def isalpha (c : Char) : Bool := c.isAlpha

/-- Tag `ArgId::IdType`. -/
inductive IdType where
  | Index
  | Named
  | None
deriving DecidableEq, Repr

/-- Storage `union Id { std::size_t Index; StringRef Named; }`, recorded by the member
written last. -/
inductive IdUnion where
  | Index (v : Nat)
  | Named (s : List Char)
deriving DecidableEq, Repr

/-- Read of member `Index` of the union. The code never checks the tag before this read;
when the stored member is `Named`, the read yields whatever the bytes of the `StringRef`
spell as a `std::size_t`, given here by `punned`. -/
def IdUnion.readIndex (punned : List Char → Nat) : IdUnion → Nat
  | .Index v => v
  | .Named s => punned s

/-- Record `struct ArgId { Id Id{}; IdType Type = IdType::None; }`. The empty initialiser
of the union sets its first member, `Index`, to zero. -/
structure ArgId where
  Id : IdUnion := .Index 0
  Type_ : IdType := .None
deriving DecidableEq, Repr

/-- Function `ArgId::parse`. `getAsInteger Radix Str` stands for
`Str.getAsInteger(Radix, Result)`: `some v` when the conversion stores `v`, `none` when it
reports failure and leaves `Result` (zero here) untouched; the code ignores which. -/
def ArgId.parse (getAsInteger : Nat → List Char → Option Nat) (Str : List Char) :
    Except ParseError ArgId :=
  match Str with
  | [] => .ok {}
  | front :: _ =>
    if isdigit front then
      .ok { Id := .Index ((getAsInteger 10 Str).getD 0), Type_ := .Index }
    else if isalpha front then
      .ok { Id := .Named Str, Type_ := .Named }
    else
      .error { ErrorMsg := "invalid format string: expected argument id or ':'" }

/-- Placeholder `struct FormatSpecifiers`: no content. -/
structure FormatSpecifiers where
deriving DecidableEq, Repr

/-- Function `FormatSpecifiers::parse`: accepts everything. -/
def FormatSpecifiers.parse (_str : List Char) : Except ParseError FormatSpecifiers :=
  .ok {}

/-- Record `struct ReplacementField { ArgId Id; FormatSpecifiers Specs; }`. -/
structure ReplacementField where
  Id : ArgId := {}
  Specs : FormatSpecifiers := {}
deriving DecidableEq, Repr

/-- Modelled from the spec: `StringRef::split(char)` belongs to llvm/ADT/StringRef.h, which
is not among the sources. "Split the body at the first `:` into an id part and a specifier
part": the text before the first separator and the text after it; without a separator the
whole text and the empty text. -/
def split (Separator : Char) (Str : List Char) : List Char × List Char :=
  (Str.takeWhile (fun c => c != Separator), (Str.dropWhile (fun c => c != Separator)).drop 1)

/-- Modelled from the spec: `StringRef::find(char)` belongs to llvm/ADT/StringRef.h. "Position
of `:` within the body": the offset of the first occurrence, and `npos` (the largest
`std::size_t`) when there is none. -/
def find (C : Char) (Str : List Char) : Nat :=
  if C ∈ Str then Str.indexOf C else 2 ^ 64 - 1

/-- Function `ReplacementField::parse`. -/
def ReplacementField.parse (getAsInteger : Nat → List Char → Option Nat) (Str : List Char) :
    Except ParseError ReplacementField :=
  if Str.isEmpty then .ok {}
  else
    let Splitted := split ':' Str
    match ArgId.parse getAsInteger Splitted.1 with
    | .error err => .error err
    | .ok Parsed =>
      match FormatSpecifiers.parse Splitted.2 with
      | .ok Specs => .ok { Id := Parsed, Specs := Specs }
      | .error err =>
        .error { ErrorMsg := err.ErrorMsg, Pos := (find ':' Str + 1 + err.Pos) % 2 ^ 64 }

/-- What a run of `extractFields` ends in: the collected fields, a `ParseError`, or a read
through an iterator that has moved beyond `Str.end()` (the loop guard `It != Str.end()` no
longer stops it). -/
inductive Result where
  | fields (Fields : List ReplacementField)
  | parseError (err : ParseError)
  | readPastEnd
deriving DecidableEq, Repr

/-- The `while (It != Str.end())` loop of `extractFields`, one unit of fuel per iteration;
`none` only when the fuel is used up. -/
def extractFields.loop (getAsInteger : Nat → List Char → Option Nat) (Str : List Char) :
    Nat → Nat → Bool → Nat → List ReplacementField → Option Result
  | 0, _, _, _, _ => none
  | fuel + 1, It, InStr, StrBegin, Fields =>
    if It = Str.length then some (.fields Fields)
    else
      match Str[It]? with
      | none => some .readPastEnd
      | some c =>
        if !InStr && c == '{' then
          if It + 1 ≠ Str.length ∧ Str[It + 1]? = some '{' then
            extractFields.loop getAsInteger Str fuel (It + 2 + 1) InStr StrBegin Fields
          else
            extractFields.loop getAsInteger Str fuel (It + 1) true It Fields
        else if InStr && c == '}' then
          if It + 1 ≠ Str.length ∧ Str[It + 1]? = some '}' then
            extractFields.loop getAsInteger Str fuel (It + 2 + 1) InStr StrBegin Fields
          else
            match ReplacementField.parse getAsInteger
                ((Str.drop (StrBegin + 1)).take (It - (StrBegin + 1))) with
            | .ok Parsed =>
              extractFields.loop getAsInteger Str fuel (It + 1) false StrBegin (Fields ++ [Parsed])
            | .error err =>
              some (.parseError { ErrorMsg := err.ErrorMsg, Pos := StrBegin + 1 + err.Pos })
        else
          extractFields.loop getAsInteger Str fuel (It + 1) InStr StrBegin Fields

/-- Function `fmt::extractFields`. Every iteration moves `It` forward, so `Str.size() + 1`
iterations are enough for every run (theorem `extractFields_eq_scanFrom`). -/
def extractFields (getAsInteger : Nat → List Char → Option Nat) (Str : List Char) :
    Option Result :=
  extractFields.loop getAsInteger Str (Str.length + 1) 0 false 0 []

/-- Modelled from the spec: `StringRef::getAsInteger` belongs to llvm/ADT/StringRef.h, which
is not among the sources. "Parse the entire id part as an unsigned decimal integer", where
"the parser trusts the integer-parse to consume a valid prefix; malformed trailing characters
are a tolerated simplification" and "`{3x}` parses as `Positional(3)`": for a radix of at most
ten (the code passes 10) the conversion reads the leading run of digits below the radix and
stores its value when that run is non-empty and the value fits the 64-bit destination; it
reports failure otherwise. -/
def getAsInteger (Radix : Nat) (Str : List Char) : Option Nat :=
  let Digits := Str.takeWhile (fun c => c.isDigit && decide (c.toNat - 48 < Radix))
  if Digits.isEmpty then none
  else
    let v := Digits.foldl (fun acc c => acc * Radix + (c.toNat - 48)) 0
    if v < 2 ^ 64 then some v else none

/-- The field a body `{}` or `{:...}` stands for: automatic indexing. -/
def Automatic : ReplacementField := {}

/-- The field a body `{index}` stands for. -/
def Positional (index : Nat) : ReplacementField :=
  { Id := { Id := .Index index, Type_ := .Index } }

/-- The field a body `{name}` stands for. -/
def Named (name : List Char) : ReplacementField :=
  { Id := { Id := .Named name, Type_ := .Named } }

end fmt

namespace FmtArgumentMismatchCheck

open fmt

/-- The diagnostics of `matchReplacements`, by kind, each with the values the code streams
into it or locates it by.
* `MixedIndexing`: "combining of manual and automatic argument indexing in format string
  restricted".
* `OutOfRangePositional p`: "no argument for position %0 in format string" with `%0 = p`.
* `UnusedArgument I`: "unused argument", placed at call argument `PosOfFormatStr + 1 + I`.
* `ArgumentCountMismatch e a`: "argument count mismatch (expected %0, got %1)". -/
inductive Finding where
  | MixedIndexing
  | OutOfRangePositional (index : Nat)
  | UnusedArgument (slot : Nat)
  | ArgumentCountMismatch (expected actual : Nat)
deriving DecidableEq, Repr

/-- Conversion `static_cast<unsigned int>` of a `std::size_t`. -/
def castUnsigned (v : Nat) : Nat := v % 2 ^ 32

/-- The loop `for (const auto& Field: Fields)` of the positional branch: the diagnostics so
far and the table `UsedPositions`. -/
def matchReplacements.fieldLoop (punned : List Char → Nat) (ArgsNum : Nat) :
    List ReplacementField → List Bool → List Finding → List Finding × List Bool
  | [], UsedPositions, Diags => (Diags, UsedPositions)
  | Field :: rest, UsedPositions, Diags =>
    if Field.Id.Id.readIndex punned ≥ ArgsNum then
      matchReplacements.fieldLoop punned ArgsNum rest UsedPositions
        (Diags ++ [.OutOfRangePositional (castUnsigned (Field.Id.Id.readIndex punned))])
    else
      matchReplacements.fieldLoop punned ArgsNum rest
        (UsedPositions.set (Field.Id.Id.readIndex punned) true) Diags

/-- The loop `for (std::size_t I = 0; I < UsedPositions.size(); ++I)`: one "unused argument"
for every `I` with `!UsedPositions[I]` (the default of `getD` is never reached, `I` being
below the size). -/
def matchReplacements.slotLoop (UsedPositions : List Bool) : List Finding :=
  ((List.range UsedPositions.length).filter (fun I => !(UsedPositions.getD I true))).map
    Finding.UnusedArgument

/-- Function `FmtArgumentMismatchCheck::matchReplacements`. `ArgsNum` is the value of
`FmtCall->getNumArgs() - 1 - PosOfFormatStr`, the number of call arguments after the format
string; the result lists the diagnostics in the order the code emits them. -/
def matchReplacements (punned : List Char → Nat) (Fields : List ReplacementField)
    (ArgsNum : Nat) : List Finding :=
  if Fields.isEmpty then []
  else
    let UsesPositionalArgs := Fields.any (fun field => field.Id.Type_ == IdType.Index)
    let UsesDefaultArgs := Fields.any (fun field => field.Id.Type_ == IdType.None)
    if UsesPositionalArgs && UsesDefaultArgs then [.MixedIndexing]
    else if UsesPositionalArgs then
      let r := matchReplacements.fieldLoop punned ArgsNum Fields (List.replicate ArgsNum false) []
      r.1 ++ matchReplacements.slotLoop r.2
    else if UsesDefaultArgs then
      if Fields.length ≠ ArgsNum then
        [.ArgumentCountMismatch (castUnsigned Fields.length) (castUnsigned ArgsNum)]
      else []
    else []

end FmtArgumentMismatchCheck

open fmt FmtArgumentMismatchCheck

/-! Definitions used to state and prove the properties -/

/-- Reference definition of the positional findings, in the words of the specification: one
`OutOfRangePositional i` for each index `i >= n` in field order, then one `UnusedArgument s`
for each slot `s < n` that no field references, in ascending order. -/
def positionalReference (idxs : List Nat) (n : Nat) : List Finding :=
  (idxs.filter (fun i => decide (n ≤ i))).map Finding.OutOfRangePositional ++
    ((List.range n).filter (fun s => decide (s ∉ idxs))).map Finding.UnusedArgument

/-- The scanner as a recursion over the text still to be read. `It` is the offset of the
first character of that text; the mode is `none` outside a field and `some (StrBegin, body)`
inside one, `body` being the characters passed since the opening brace. -/
def scanFrom (gai : Nat → List Char → Option Nat) :
    List Char → Nat → Option (Nat × List Char) → List ReplacementField → Result
  | [], _, _, Fields => .fields Fields
  | c :: rest, It, none, Fields =>
    if c = '{' then
      if rest.head? = some '{' then
        match rest with
        | _ :: _ :: rest2 => scanFrom gai rest2 (It + 3) none Fields
        | _ => .readPastEnd
      else scanFrom gai rest (It + 1) (some (It, [])) Fields
    else scanFrom gai rest (It + 1) none Fields
  | c :: rest, It, some (StrBegin, body), Fields =>
    if c = '}' then
      if rest.head? = some '}' then
        match rest with
        | d :: e :: rest2 => scanFrom gai rest2 (It + 3) (some (StrBegin, body ++ [c, d, e])) Fields
        | _ => .readPastEnd
      else
        match ReplacementField.parse gai body with
        | .ok Parsed => scanFrom gai rest (It + 1) none (Fields ++ [Parsed])
        | .error err => .parseError { ErrorMsg := err.ErrorMsg, Pos := StrBegin + 1 + err.Pos }
    else scanFrom gai rest (It + 1) (some (StrBegin, body ++ [c])) Fields

/-- What every reported parse error satisfies with respect to the template `Str`. -/
def ErrorAt (Str : List Char) (e : ParseError) : Prop :=
  e.ErrorMsg = "invalid format string: expected argument id or ':'" ∧
    1 ≤ e.Pos ∧ e.Pos < Str.length ∧ Str[e.Pos - 1]? = some '{' ∧
    ∃ c, Str[e.Pos]? = some c ∧ isdigit c = false ∧ isalpha c = false

/-- The text `{b1}l1{b2}l2...{bk}lk` for the pairs `(b1, l1), ..., (bk, lk)` of a field body
and the literal text after the field. -/
def fieldsTemplate : List (List Char × List Char) → List Char
  | [] => []
  | p :: segs => '{' :: p.1 ++ '}' :: p.2 ++ fieldsTemplate segs

/-- Value of a decimal numeral, most significant digit first: the text `d` is a decimal
numeral of `n` when it is a non-empty run of decimal digits and `decimalValue d = n`. -/
def decimalValue (d : List Char) : Nat :=
  d.foldl (fun acc c => acc * 10 + (c.toNat - 48)) 0

/-- The text `{b1} {b2} ... {bk}`: the fields with the given bodies, one space between
neighbours. -/
def spacedTemplate : List (List Char) → List Char
  | [] => []
  | [b] => '{' :: b ++ ['}']
  | b :: bs => '{' :: b ++ '}' :: ' ' :: spacedTemplate bs

/-! Cross-check of fields and arguments -/

section Analyzer

variable (punned : List Char → Nat)

theorem readIndex_Positional (i : Nat) : (Positional i).Id.Id.readIndex punned = i := rfl

theorem fieldLoop_Positional (n : Nat) (idxs : List Nat) (Used : List Bool) (Diags : List Finding) :
    matchReplacements.fieldLoop punned n (idxs.map Positional) Used Diags =
      (Diags ++ (idxs.filter (fun i => decide (n ≤ i))).map
          (fun i => Finding.OutOfRangePositional (i % 2 ^ 32)),
        idxs.foldl (fun U i => if n ≤ i then U else U.set i true) Used) := by
  induction idxs generalizing Used Diags with
  | nil => simp [matchReplacements.fieldLoop]
  | cons i rest ih =>
    simp only [List.map_cons, matchReplacements.fieldLoop, readIndex_Positional, ge_iff_le,
      List.foldl_cons]
    by_cases h : n ≤ i
    · simp [h, ih, castUnsigned]
    · simp [h, ih]

theorem markFold_length (n : Nat) (idxs : List Nat) (Used : List Bool) :
    (idxs.foldl (fun U i => if n ≤ i then U else U.set i true) Used).length = Used.length := by
  induction idxs generalizing Used with
  | nil => rfl
  | cons i rest ih =>
    simp only [List.foldl_cons]
    rw [ih]
    split <;> simp

theorem markFold_getD (n : Nat) (idxs : List Nat) (Used : List Bool) (s : Nat)
    (hn : Used.length = n) (hs : s < n) :
    (idxs.foldl (fun U i => if n ≤ i then U else U.set i true) Used).getD s true =
      (Used.getD s true || decide (s ∈ idxs)) := by
  induction idxs generalizing Used with
  | nil => simp
  | cons i rest ih =>
    simp only [List.foldl_cons]
    by_cases h : n ≤ i
    · have hne : s ≠ i := by omega
      simp only [h, if_true]
      rw [ih Used hn]
      simp [hne]
    · simp only [h, if_false]
      rw [ih (Used.set i true) (by simpa using hn)]
      by_cases hsi : s = i
      · subst hsi
        have : s < Used.length := by omega
        simp [List.getD_eq_getElem?_getD, List.getElem?_set, this]
      · have hne : i ≠ s := fun e => hsi e.symm
        simp [List.getD_eq_getElem?_getD, List.getElem?_set, hne, hsi]

theorem slotLoop_markFold (n : Nat) (idxs : List Nat) :
    matchReplacements.slotLoop
        (idxs.foldl (fun U i => if n ≤ i then U else U.set i true) (List.replicate n false)) =
      ((List.range n).filter (fun s => decide (s ∉ idxs))).map Finding.UnusedArgument := by
  unfold matchReplacements.slotLoop
  rw [markFold_length, List.length_replicate]
  congr 1
  apply List.filter_congr
  intro s hs
  have hs2 : s < n := List.mem_range.mp hs
  rw [markFold_getD n idxs _ s (List.length_replicate _ _) hs2]
  simp [List.getD_eq_getElem?_getD, List.getElem?_replicate, hs2]

end Analyzer

/-! Claims C1 to C3 -/

/-- C1, as stated, fails: the field `{4294967296}` checked against one argument is reported
through `static_cast<unsigned int>`, hence as position 0 and not as position 4294967296. -/
theorem C1_positional_reference_counterexample :
    matchReplacements (fun _ => 0) ([4294967296].map Positional) 1 =
        [Finding.OutOfRangePositional 0, Finding.UnusedArgument 0] ∧
      positionalReference [4294967296] 1 =
        [Finding.OutOfRangePositional 4294967296, Finding.UnusedArgument 0] ∧
      matchReplacements (fun _ => 0) ([4294967296].map Positional) 1 ≠
        positionalReference [4294967296] 1 := by
  decide

/-- C1 (amended): for a non-empty sequence of Positional fields with indices `idxs` and `n`
supplied arguments, the findings are exactly one `OutOfRangePositional (i mod 2^32)` for each
field whose index `i >= n`, in field order, followed by one `UnusedArgument s` for each slot
`s < n` that no field references, in ascending slot order, and nothing else. -/
theorem C1_positional_findings (punned : List Char → Nat) (idxs : List Nat) (n : Nat)
    (hne : idxs ≠ []) :
    matchReplacements punned (idxs.map Positional) n =
      (idxs.filter (fun i => decide (n ≤ i))).map
          (fun i => Finding.OutOfRangePositional (i % 2 ^ 32)) ++
        ((List.range n).filter (fun s => decide (s ∉ idxs))).map Finding.UnusedArgument := by
  obtain ⟨i, rest, rfl⟩ := List.exists_cons_of_ne_nil hne
  have hpos : (List.map Positional (i :: rest)).any (fun field => field.Id.Type_ == IdType.Index)
      = true := by simp [Positional]
  have hdef : (List.map Positional (i :: rest)).any (fun field => field.Id.Type_ == IdType.None)
      = false := by simp [Positional]
  unfold matchReplacements
  simp only [hpos, hdef]
  rw [fieldLoop_Positional]
  simp only [List.isEmpty_cons, List.map_cons, Bool.false_eq_true, if_false, Bool.and_false,
    if_true, List.nil_append]
  rw [slotLoop_markFold]

/-- C1 witness: `{1} {0} {3}` and `{0} {1} {2} {3}` against three arguments. -/
theorem C1_positional_findings_witness :
    matchReplacements (fun _ => 0) ([1, 0, 3].map Positional) 3 =
        [Finding.OutOfRangePositional 3, Finding.UnusedArgument 2] ∧
      matchReplacements (fun _ => 0) ([0, 1, 2, 3].map Positional) 3 =
        [Finding.OutOfRangePositional 3] :=
  ⟨(C1_positional_findings (fun _ => 0) [1, 0, 3] 3 (by decide)).trans (by decide),
   (C1_positional_findings (fun _ => 0) [0, 1, 2, 3] 3 (by decide)).trans (by decide)⟩

/-- The automatic branch for counts of any size: both counts are streamed through
`static_cast<unsigned>`, the comparison is made on the full values. -/
theorem matchReplacements_automatic (punned : List Char → Nat)
    (Fields : List ReplacementField) (n : Nat)
    (hauto : ∃ f ∈ Fields, f.Id.Type_ = IdType.None)
    (hnopos : ∀ f ∈ Fields, f.Id.Type_ ≠ IdType.Index) :
    matchReplacements punned Fields n =
      if Fields.length = n then []
      else [Finding.ArgumentCountMismatch (Fields.length % 2 ^ 32) (n % 2 ^ 32)] := by
  obtain ⟨f, hf, hty⟩ := hauto
  have hne : Fields.isEmpty = false := by
    cases Fields with
    | nil => simp at hf
    | cons a l => rfl
  have hpos : Fields.any (fun field => field.Id.Type_ == IdType.Index) = false := by
    simpa using hnopos
  have hdef : Fields.any (fun field => field.Id.Type_ == IdType.None) = true := by
    simp only [List.any_eq_true, beq_iff_eq]
    exact ⟨f, hf, hty⟩
  unfold matchReplacements
  simp only [hne, hpos, hdef, castUnsigned]
  by_cases h : Fields.length = n <;> simp [h]

/-- C2: for a field sequence with at least one Automatic field and no Positional field (Named
fields allowed and counted) and `n` supplied arguments, the findings are exactly
`[ArgumentCountMismatch (number of fields) n]` when the number of fields differs from `n`, and
the empty list when they are equal. Both counts range over the values of an `unsigned`:
`n` comes from `CallExpr::getNumArgs()`, and the fields come from one string literal. -/
theorem C2_count_mismatch (punned : List Char → Nat) (Fields : List ReplacementField) (n : Nat)
    (hauto : ∃ f ∈ Fields, f.Id.Type_ = IdType.None)
    (hnopos : ∀ f ∈ Fields, f.Id.Type_ ≠ IdType.Index)
    (hlen : Fields.length < 2 ^ 32) (hn : n < 2 ^ 32) :
    matchReplacements punned Fields n =
      if Fields.length = n then []
      else [Finding.ArgumentCountMismatch Fields.length n] := by
  rw [matchReplacements_automatic punned Fields n hauto hnopos, Nat.mod_eq_of_lt hlen,
    Nat.mod_eq_of_lt hn]

/-- C2 witness: four automatic fields against three arguments, three against four, two
against two, and a named field counted among the fields. -/
theorem C2_count_mismatch_witness :
    matchReplacements (fun _ => 0) [Automatic, Automatic, Automatic, Automatic] 3 =
        [Finding.ArgumentCountMismatch 4 3] ∧
      matchReplacements (fun _ => 0) [Automatic, Automatic, Automatic] 4 =
        [Finding.ArgumentCountMismatch 3 4] ∧
      matchReplacements (fun _ => 0) [Automatic, Automatic] 2 = [] ∧
      matchReplacements (fun _ => 0) [Automatic, Named ['x']] 1 =
        [Finding.ArgumentCountMismatch 2 1] :=
  ⟨(C2_count_mismatch (fun _ => 0) [Automatic, Automatic, Automatic, Automatic] 3
      ⟨Automatic, by simp, rfl⟩ (by decide) (by decide) (by decide)).trans (by decide),
   (C2_count_mismatch (fun _ => 0) [Automatic, Automatic, Automatic] 4
      ⟨Automatic, by simp, rfl⟩ (by decide) (by decide) (by decide)).trans (by decide),
   (C2_count_mismatch (fun _ => 0) [Automatic, Automatic] 2
      ⟨Automatic, by simp, rfl⟩ (by decide) (by decide) (by decide)).trans (by decide),
   (C2_count_mismatch (fun _ => 0) [Automatic, Named ['x']] 1
      ⟨Automatic, by simp, rfl⟩ (by decide) (by decide) (by decide)).trans (by decide)⟩

/-- C3: a field sequence with at least one Positional field and at least one Automatic field
yields exactly `[MixedIndexing]`, whatever the number of supplied arguments. -/
theorem C3_mixed_indexing (punned : List Char → Nat) (Fields : List ReplacementField) (n : Nat)
    (hpos : ∃ f ∈ Fields, f.Id.Type_ = IdType.Index)
    (hauto : ∃ f ∈ Fields, f.Id.Type_ = IdType.None) :
    matchReplacements punned Fields n = [Finding.MixedIndexing] := by
  obtain ⟨f, hf, hfty⟩ := hpos
  obtain ⟨g, hg, hgty⟩ := hauto
  have hne : Fields.isEmpty = false := by
    cases Fields with
    | nil => simp at hf
    | cons a l => rfl
  have h1 : Fields.any (fun field => field.Id.Type_ == IdType.Index) = true := by
    simp only [List.any_eq_true, beq_iff_eq]
    exact ⟨f, hf, hfty⟩
  have h2 : Fields.any (fun field => field.Id.Type_ == IdType.None) = true := by
    simp only [List.any_eq_true, beq_iff_eq]
    exact ⟨g, hg, hgty⟩
  unfold matchReplacements
  simp [hne, h1, h2]

/-- C3 witness: the fields of `{2} {} {0}` against three arguments. -/
theorem C3_mixed_indexing_witness :
    matchReplacements (fun _ => 0) [Positional 2, Automatic, Positional 0] 3 =
      [Finding.MixedIndexing] :=
  C3_mixed_indexing (fun _ => 0) [Positional 2, Automatic, Positional 0] 3
    ⟨Positional 2, by simp, rfl⟩ ⟨Automatic, by simp, rfl⟩

/-! The scanner -/

section ScannerLemmas

variable (gai : Nat → List Char → Option Nat)

theorem getElem?_append_length (pre rest : List Char) :
    (pre ++ rest)[pre.length]? = rest.head? := by
  rw [List.getElem?_append_right (Nat.le_refl _)]
  cases rest <;> simp

theorem getElem?_append_length_succ (pre : List Char) (c : Char) (rest : List Char) :
    (pre ++ c :: rest)[pre.length + 1]? = rest.head? := by
  rw [List.getElem?_append_right (Nat.le_succ _)]
  cases rest <;> simp

theorem loop_past_end (Str : List Char) (fuel It : Nat) (InStr : Bool) (sb : Nat)
    (Fs : List ReplacementField) (h : Str.length < It) :
    extractFields.loop gai Str (fuel + 1) It InStr sb Fs = some Result.readPastEnd := by
  have h1 : It ≠ Str.length := by omega
  have h2 : Str[It]? = none := List.getElem?_eq_none (by omega)
  simp [extractFields.loop, h1, h2]

theorem scanFrom_literal (c : Char) (rest : List Char) (It : Nat) (Fs : List ReplacementField)
    (hc : c ≠ '{') :
    scanFrom gai (c :: rest) It none Fs = scanFrom gai rest (It + 1) none Fs := by
  rw [scanFrom.eq_def]; simp [hc]

theorem scanFrom_open (rest : List Char) (It : Nat) (Fs : List ReplacementField)
    (h : rest.head? ≠ some '{') :
    scanFrom gai ('{' :: rest) It none Fs = scanFrom gai rest (It + 1) (some (It, [])) Fs := by
  rw [scanFrom.eq_def]; simp [h]

theorem scanFrom_escape (e : Char) (rest2 : List Char) (It : Nat) (Fs : List ReplacementField) :
    scanFrom gai ('{' :: '{' :: e :: rest2) It none Fs = scanFrom gai rest2 (It + 3) none Fs := by
  rw [scanFrom.eq_def]; simp

theorem scanFrom_escape_end (It : Nat) (Fs : List ReplacementField) :
    scanFrom gai ['{', '{'] It none Fs = Result.readPastEnd := by
  rw [scanFrom.eq_def]; simp

theorem scanFrom_inside (c : Char) (rest : List Char) (It sb : Nat) (body : List Char)
    (Fs : List ReplacementField) (hc : c ≠ '}') :
    scanFrom gai (c :: rest) It (some (sb, body)) Fs =
      scanFrom gai rest (It + 1) (some (sb, body ++ [c])) Fs := by
  rw [scanFrom.eq_def]; simp [hc]

theorem scanFrom_close (rest : List Char) (It sb : Nat) (body : List Char)
    (Fs : List ReplacementField) (h : rest.head? ≠ some '}') :
    scanFrom gai ('}' :: rest) It (some (sb, body)) Fs =
      match ReplacementField.parse gai body with
      | .ok Parsed => scanFrom gai rest (It + 1) none (Fs ++ [Parsed])
      | .error err => Result.parseError { ErrorMsg := err.ErrorMsg, Pos := sb + 1 + err.Pos } := by
  rw [scanFrom.eq_def]; simp [h]

theorem scanFrom_skip (e : Char) (rest2 : List Char) (It sb : Nat) (body : List Char)
    (Fs : List ReplacementField) :
    scanFrom gai ('}' :: '}' :: e :: rest2) It (some (sb, body)) Fs =
      scanFrom gai rest2 (It + 3) (some (sb, body ++ ['}', '}', e])) Fs := by
  rw [scanFrom.eq_def]; simp

theorem scanFrom_skip_end (It sb : Nat) (body : List Char) (Fs : List ReplacementField) :
    scanFrom gai ['}', '}'] It (some (sb, body)) Fs = Result.readPastEnd := by
  rw [scanFrom.eq_def]; simp

theorem loop_eq_scanFrom (fuel : Nat) :
    ∀ (pre rest : List Char) (InStr : Bool) (sb : Nat) (Fs : List ReplacementField),
      rest.length < fuel → (InStr = true → sb < pre.length) →
      extractFields.loop gai (pre ++ rest) fuel pre.length InStr sb Fs =
        some (scanFrom gai rest pre.length
          (if InStr then some (sb, pre.drop (sb + 1)) else none) Fs) := by
  induction fuel with
  | zero => intro pre rest InStr sb Fs h; omega
  | succ fuel ih =>
    intro pre rest InStr sb Fs hfuel hsb
    cases rest with
    | nil => simp [extractFields.loop, scanFrom]
    | cons c rest =>
      have hlen : pre.length ≠ (pre ++ c :: rest).length := by simp
      have hget : (pre ++ c :: rest)[pre.length]? = some c := by
        rw [getElem?_append_length]; rfl
      have hcond : ∀ x : Char, (pre.length + 1 ≠ (pre ++ c :: rest).length ∧
          (pre ++ c :: rest)[pre.length + 1]? = some x) ↔ rest.head? = some x := by
        intro x
        rw [getElem?_append_length_succ]
        cases rest <;> simp
      have hfuel1 : rest.length < fuel := by simpa using hfuel
      have hstep1 : ∀ (InStr1 : Bool) (sb1 : Nat) (Fs1 : List ReplacementField),
          (InStr1 = true → sb1 < pre.length + 1) →
          extractFields.loop gai (pre ++ c :: rest) fuel (pre.length + 1) InStr1 sb1 Fs1 =
            some (scanFrom gai rest (pre.length + 1)
              (if InStr1 then some (sb1, (pre ++ [c]).drop (sb1 + 1)) else none) Fs1) := by
        intro InStr1 sb1 Fs1 h1
        have := ih (pre ++ [c]) rest InStr1 sb1 Fs1 hfuel1 (by simpa using h1)
        simpa using this
      have hstep3 : ∀ (d e : Char) (rest2 : List Char), rest = d :: e :: rest2 →
          extractFields.loop gai (pre ++ c :: rest) fuel (pre.length + 2 + 1) InStr sb Fs =
            some (scanFrom gai rest2 (pre.length + 3)
              (if InStr then some (sb, (pre ++ [c, d, e]).drop (sb + 1)) else none) Fs) := by
        intro d e rest2 hr
        subst hr
        have := ih (pre ++ [c, d, e]) rest2 InStr sb Fs
          (by simp at hfuel1; omega) (by intro h; have := hsb h; simp; omega)
        simpa using this
      have hstepEnd : ∀ (d : Char), rest = [d] →
          extractFields.loop gai (pre ++ c :: rest) fuel (pre.length + 2 + 1) InStr sb Fs =
            some Result.readPastEnd := by
        intro d hr
        subst hr
        cases fuel with
        | zero => simp at hfuel1
        | succ f => exact loop_past_end gai _ f _ _ _ _ (by simp)
      rw [extractFields.loop]
      simp only [hlen, if_false, hget, hcond]
      cases InStr with
      | false =>
        simp only [Bool.not_false, Bool.true_and, Bool.false_and, Bool.false_eq_true, if_false,
          beq_iff_eq]
        by_cases hc : c = '{'
        · simp only [hc, if_true]
          by_cases hh : rest.head? = some '{'
          · simp only [hh, if_true]
            rw [← hc]
            cases rest with
            | nil => simp at hh
            | cons d rest1 =>
              have hd : d = '{' := by simpa using hh
              subst hd
              cases rest1 with
              | nil =>
                subst hc
                rw [scanFrom_escape_end]
                exact hstepEnd _ rfl
              | cons e rest2 =>
                subst hc
                rw [scanFrom_escape]
                exact hstep3 _ _ _ rfl
          · simp only [hh, if_false]
            rw [scanFrom_open gai _ _ _ hh, ← hc]
            have := hstep1 true pre.length Fs (by simp)
            simpa using this
        · simp only [hc, if_false]
          rw [scanFrom_literal gai _ _ _ _ hc]
          exact hstep1 false sb Fs (by simp)
      | true =>
        have hsb1 : sb < pre.length := hsb rfl
        have hdrop : ∀ (xs : List Char), (pre ++ xs).drop (sb + 1) = pre.drop (sb + 1) ++ xs := by
          intro xs
          rw [List.drop_append_of_le_length (by omega)]
        have hbody : ((pre ++ c :: rest).drop (sb + 1)).take (pre.length - (sb + 1)) =
            pre.drop (sb + 1) := by
          rw [hdrop]
          rw [List.take_append_of_le_length (by simp)]
          exact List.take_of_length_le (by simp)
        simp only [Bool.not_true, Bool.false_and, Bool.false_eq_true, if_false, Bool.true_and,
          beq_iff_eq, if_true, hbody]
        by_cases hc : c = '}'
        · simp only [hc, if_true]
          by_cases hh : rest.head? = some '}'
          · simp only [hh, if_true]
            rw [← hc]
            cases rest with
            | nil => simp at hh
            | cons d rest1 =>
              have hd : d = '}' := by simpa using hh
              subst hd
              cases rest1 with
              | nil =>
                subst hc
                rw [scanFrom_skip_end]
                exact hstepEnd _ rfl
              | cons e rest2 =>
                subst hc
                rw [scanFrom_skip]
                have := hstep3 _ _ _ rfl
                rw [hdrop] at this
                simpa using this
          · simp only [hh, if_false]
            rw [scanFrom_close gai _ _ _ _ _ hh]
            cases hp : ReplacementField.parse gai (pre.drop (sb + 1)) with
            | error err => rfl
            | ok Parsed =>
              simp only []
              rw [← hc]
              exact hstep1 false sb (Fs ++ [Parsed]) (by simp)
        · simp only [hc, if_false]
          rw [scanFrom_inside gai _ _ _ _ _ _ hc]
          have := hstep1 true sb Fs (by intro _; omega)
          rw [hdrop] at this
          simpa using this

/-- The scanner always comes to an end within its fuel, and its outcome is that of the
recursion over the text. -/
theorem extractFields_eq_scanFrom (Str : List Char) :
    extractFields gai Str = some (scanFrom gai Str 0 none []) := by
  have := loop_eq_scanFrom gai (Str.length + 1) [] Str false 0 [] (by simp) (by simp)
  simpa [extractFields] using this

/-! Field bodies -/

theorem ArgId_parse_error_iff (p : List Char) (err : ParseError) :
    ArgId.parse gai p = .error err ↔
      (∃ c tail, p = c :: tail ∧ isdigit c = false ∧ isalpha c = false) ∧
        err = { ErrorMsg := "invalid format string: expected argument id or ':'", Pos := 0 } := by
  cases p with
  | nil => simp [ArgId.parse]
  | cons c tail =>
    simp only [ArgId.parse]
    by_cases hd : isdigit c = true
    · simp [hd]
    · by_cases ha : isalpha c = true
      · simp [hd, ha]
      · simp only [hd, ha, Bool.false_eq_true, if_false, Except.error.injEq]
        constructor
        · intro h
          exact ⟨⟨c, tail, rfl, by simpa using hd, by simpa using ha⟩, h.symm⟩
        · intro h
          exact h.2.symm

theorem ReplacementField_parse_error_iff (b : List Char) (err : ParseError) :
    ReplacementField.parse gai b = .error err ↔
      (∃ c tail, b.takeWhile (fun x => x != ':') = c :: tail ∧
          isdigit c = false ∧ isalpha c = false) ∧
        err = { ErrorMsg := "invalid format string: expected argument id or ':'", Pos := 0 } := by
  unfold ReplacementField.parse
  cases b with
  | nil => simp
  | cons x xs =>
    simp only [List.isEmpty_cons, Bool.false_eq_true, if_false, split, FormatSpecifiers.parse]
    cases hp : ArgId.parse gai (List.takeWhile (fun c => c != ':') (x :: xs)) with
    | ok Parsed =>
      simp only [false_iff, reduceCtorEq]
      intro h
      have := (ArgId_parse_error_iff gai _ _).mpr h
      rw [hp] at this
      cases this
    | error e2 =>
      simp only [Except.error.injEq]
      have := (ArgId_parse_error_iff gai _ e2).mp hp
      constructor
      · intro h
        subst h
        exact this
      · intro h
        rw [h.2, this.2]

/-! Offsets of parse errors -/

theorem head_of_takeWhile_cons {q : Char → Bool} {l : List Char} {c : Char} {tail : List Char}
    (h : l.takeWhile q = c :: tail) : l.head? = some c := by
  cases l with
  | nil => simp at h
  | cons x xs =>
    simp only [List.takeWhile_cons] at h
    split at h
    · simp only [List.cons.injEq] at h
      simp [h.1]
    · cases h

theorem loop_parseError (Str : List Char) (e : ParseError) (fuel : Nat) :
    ∀ (It : Nat) (InStr : Bool) (sb : Nat) (Fs : List ReplacementField),
      (InStr = true → sb < It ∧ Str[sb]? = some '{') →
      extractFields.loop gai Str fuel It InStr sb Fs = some (Result.parseError e) →
      ErrorAt Str e := by
  induction fuel with
  | zero => intro It InStr sb Fs _ h; simp [extractFields.loop] at h
  | succ fuel ih =>
    intro It InStr sb Fs hinv h
    rw [extractFields.loop] at h
    by_cases hend : It = Str.length
    · simp [hend] at h
    · simp only [hend, if_false] at h
      cases hget : Str[It]? with
      | none => simp [hget] at h
      | some c =>
        simp only [hget] at h
        by_cases h1 : (!InStr && c == '{') = true
        · simp only [h1, if_true] at h
          have hIn : InStr = false := by
            cases InStr <;> simp at h1 ⊢
          have hc : c = '{' := by
            cases InStr <;> simp at h1; exact h1
          split at h
          · exact ih _ _ _ _ (by intro hh; rw [hIn] at hh; cases hh) h
          · exact ih _ _ _ _ (by intro _; exact ⟨Nat.lt_succ_self _, by rw [hget, hc]⟩) h
        · simp only [h1, Bool.false_eq_true, if_false] at h
          by_cases h2 : (InStr && c == '}') = true
          · simp only [h2, if_true] at h
            have hIn : InStr = true := by
              cases InStr <;> simp at h2 ⊢
            obtain ⟨hsb, hbrace⟩ := hinv hIn
            split at h
            · exact ih _ _ _ _ (by intro _; exact ⟨by omega, hbrace⟩) h
            · cases hp : ReplacementField.parse gai
                  (List.take (It - (sb + 1)) (List.drop (sb + 1) Str)) with
              | ok Parsed =>
                rw [hp] at h
                exact ih _ _ _ _ (by intro hh; cases hh) h
              | error err =>
                rw [hp] at h
                simp only [Option.some.injEq, Result.parseError.injEq] at h
                obtain ⟨⟨c0, tail, htw, hd, ha⟩, herr⟩ :=
                  (ReplacementField_parse_error_iff gai _ err).mp hp
                have hhead := head_of_takeWhile_cons htw
                have hpos : e.Pos = sb + 1 := by rw [← h, herr]; rfl
                have hc0 : Str[sb + 1]? = some c0 := by
                  cases hk : It - (sb + 1) with
                  | zero => rw [hk] at hhead; simp at hhead
                  | succ k =>
                    rw [hk] at hhead
                    cases hdr : List.drop (sb + 1) Str with
                    | nil => rw [hdr] at hhead; simp at hhead
                    | cons y ys =>
                      rw [hdr] at hhead
                      simp only [List.take_succ_cons, List.head?_cons, Option.some.injEq] at hhead
                      have : (List.drop (sb + 1) Str)[0]? = some y := by rw [hdr]; simp
                      rw [List.getElem?_drop] at this
                      rw [← hhead]
                      simpa using this
                have hlt : sb + 1 < Str.length := by
                  by_contra hcon
                  rw [List.getElem?_eq_none (by omega)] at hc0
                  cases hc0
                refine ⟨by rw [← h, herr], by omega, by omega, ?_, c0, ?_, hd, ha⟩
                · rw [hpos]; simpa using hbrace
                · rw [hpos]; exact hc0
          · simp only [h2, Bool.false_eq_true, if_false] at h
            refine ih _ _ _ _ ?_ h
            intro hh
            obtain ⟨hsb, hbrace⟩ := hinv hh
            exact ⟨by omega, hbrace⟩

end ScannerLemmas

section Templates

variable (gai : Nat → List Char → Option Nat)

theorem scanFrom_literal_run (l rest : List Char) (It : Nat) (Fs : List ReplacementField)
    (hl : '{' ∉ l) :
    scanFrom gai (l ++ rest) It none Fs = scanFrom gai rest (It + l.length) none Fs := by
  induction l generalizing It with
  | nil => simp
  | cons c l ih =>
    have hc : c ≠ '{' := fun e => hl (by simp [e])
    have hl2 : '{' ∉ l := fun m => hl (List.mem_cons_of_mem _ m)
    rw [List.cons_append, scanFrom_literal gai _ _ _ _ hc, ih _ hl2]
    congr 1
    simp only [List.length_cons]
    omega

theorem scanFrom_body_run (b rest : List Char) (It sb : Nat) (body : List Char)
    (Fs : List ReplacementField) (hb : '}' ∉ b) :
    scanFrom gai (b ++ rest) It (some (sb, body)) Fs =
      scanFrom gai rest (It + b.length) (some (sb, body ++ b)) Fs := by
  induction b generalizing It body with
  | nil => simp
  | cons c b ih =>
    have hc : c ≠ '}' := fun e => hb (by simp [e])
    have hb2 : '}' ∉ b := fun m => hb (List.mem_cons_of_mem _ m)
    rw [List.cons_append, scanFrom_inside gai _ _ _ _ _ _ hc, ih _ _ hb2]
    simp only [List.length_cons, List.append_assoc, List.singleton_append]
    congr 1
    omega

theorem head?_append_ne (b rest : List Char) (x y : Char) (hb : x ∉ b) (hxy : y ≠ x) :
    (b ++ y :: rest).head? ≠ some x := by
  cases b with
  | nil => simpa using hxy
  | cons c b =>
    simp only [List.cons_append, List.head?_cons, ne_eq, Option.some.injEq]
    intro e
    exact hb (by simp [e])

/-- One whole field `{b}`: the scanner hands `b` to the field parser when the closing brace is
not followed by a second one. -/
theorem scanFrom_field (b rest : List Char) (It : Nat) (Fs : List ReplacementField)
    (hb1 : '{' ∉ b) (hb2 : '}' ∉ b) (hrest : rest.head? ≠ some '}') :
    scanFrom gai ('{' :: b ++ '}' :: rest) It none Fs =
      match ReplacementField.parse gai b with
      | .ok Parsed => scanFrom gai rest (It + b.length + 2) none (Fs ++ [Parsed])
      | .error err => Result.parseError { ErrorMsg := err.ErrorMsg, Pos := It + 1 + err.Pos } := by
  rw [List.cons_append, scanFrom_open gai _ _ _ (head?_append_ne b rest '{' '}' hb1 (by decide)),
    scanFrom_body_run gai _ _ _ _ _ _ hb2, scanFrom_close gai _ _ _ _ _ hrest]
  have hoff : It + 1 + b.length + 1 = It + b.length + 2 := by omega
  simp only [List.nil_append, hoff]

theorem head?_fieldsTemplate (l : List Char) (segs : List (List Char × List Char))
    (hl : '}' ∉ l) : (l ++ fieldsTemplate segs).head? ≠ some '}' := by
  cases l with
  | nil =>
    cases segs with
    | nil => simp [fieldsTemplate]
    | cons p segs => simp [fieldsTemplate]
  | cons c l =>
    simp only [List.cons_append, List.head?_cons, ne_eq, Option.some.injEq]
    intro e
    exact hl (by simp [e])

theorem scanFrom_fieldsTemplate (segs : List (List Char × List Char)) :
    ∀ (It : Nat) (Fs fs : List ReplacementField),
      (∀ p ∈ segs, ('{' ∉ p.1 ∧ '}' ∉ p.1) ∧ ('{' ∉ p.2 ∧ '}' ∉ p.2)) →
      segs.map (fun p => ReplacementField.parse gai p.1) = fs.map Except.ok →
      scanFrom gai (fieldsTemplate segs) It none Fs = Result.fields (Fs ++ fs) := by
  induction segs with
  | nil =>
    intro It Fs fs _ hfs
    cases fs with
    | nil => simp [fieldsTemplate, scanFrom]
    | cons f fs => simp at hfs
  | cons p segs ih =>
    intro It Fs fs hsegs hfs
    cases fs with
    | nil => simp at hfs
    | cons f fs =>
      simp only [List.map_cons, List.cons.injEq] at hfs
      obtain ⟨⟨hb1, hb2⟩, hl1, hl2⟩ := hsegs p (List.mem_cons_self _ _)
      have hsegs2 : ∀ q ∈ segs, ('{' ∉ q.1 ∧ '}' ∉ q.1) ∧ ('{' ∉ q.2 ∧ '}' ∉ q.2) :=
        fun q hq => hsegs q (List.mem_cons_of_mem _ hq)
      simp only [fieldsTemplate]
      rw [List.append_assoc]
      have := scanFrom_field gai p.1 (p.2 ++ fieldsTemplate segs) It Fs hb1 hb2
        (head?_fieldsTemplate p.2 segs hl2)
      rw [List.cons_append] at this
      rw [List.cons_append, List.cons_append, this, hfs.1]
      simp only []
      rw [scanFrom_literal_run gai _ _ _ _ hl1, ih _ _ fs hsegs2 hfs.2]
      simp

end Templates

/-! Claims C4, C5, C10 -/

/-- C4: whenever `extractFields` fails on a template `t`, the message is "invalid format
string: expected argument id or ':'" and the offset `o` indexes the template itself:
`1 <= o < length t`, `t[o-1]` is the brace that opened the offending field and `t[o]`, the
first character of that field, is neither a decimal digit nor a letter. -/
theorem C4_error_offset_absolute (gai : Nat → List Char → Option Nat) (t : List Char)
    (e : ParseError) (h : extractFields gai t = some (Result.parseError e)) :
    e.ErrorMsg = "invalid format string: expected argument id or ':'" ∧
      1 ≤ e.Pos ∧ e.Pos < t.length ∧ t[e.Pos - 1]? = some '{' ∧
      ∃ c, t[e.Pos]? = some c ∧ isdigit c = false ∧ isalpha c = false :=
  loop_parseError gai t e (t.length + 1) 0 false 0 [] (by intro hh; cases hh) h

/-- C4 witness: the template `{0} {_} ` fails with offset 5, which indexes `_`. -/
theorem C4_error_offset_absolute_witness :
    extractFields getAsInteger ['{', '0', '}', ' ', '{', '_', '}', ' '] =
        some (Result.parseError
          { ErrorMsg := "invalid format string: expected argument id or ':'", Pos := 5 }) ∧
      ['{', '0', '}', ' ', '{', '_', '}', ' '][5]? = some '_' ∧
      ['{', '0', '}', ' ', '{', '_', '}', ' '][5 - 1]? = some '{' :=
  ⟨by decide, by decide,
   (C4_error_offset_absolute getAsInteger ['{', '0', '}', ' ', '{', '_', '}', ' ']
      { ErrorMsg := "invalid format string: expected argument id or ':'", Pos := 5 }
      (by decide)).2.2.2.1⟩

/-- C5: a template `l0 {b1} l1 ... {bk} lk`, whose literal parts and field bodies contain no
brace and whose bodies the field parser accepts, is scanned successfully into exactly the `k`
fields parsed from `b1, ..., bk`, in that order. -/
theorem C5_one_field_per_occurrence (gai : Nat → List Char → Option Nat) (l0 : List Char)
    (segs : List (List Char × List Char)) (fs : List ReplacementField)
    (hl0 : '{' ∉ l0 ∧ '}' ∉ l0)
    (hsegs : ∀ p ∈ segs, ('{' ∉ p.1 ∧ '}' ∉ p.1) ∧ ('{' ∉ p.2 ∧ '}' ∉ p.2))
    (hparse : segs.map (fun p => ReplacementField.parse gai p.1) = fs.map Except.ok) :
    extractFields gai (l0 ++ fieldsTemplate segs) = some (Result.fields fs) := by
  rw [extractFields_eq_scanFrom, scanFrom_literal_run gai _ _ _ _ hl0.1,
    scanFrom_fieldsTemplate gai segs _ _ fs hsegs hparse]
  simp

/-- C5 witness: `{1} {0}` gives the fields Positional 1, Positional 0 and `{} {}` gives two
automatic fields. -/
theorem C5_one_field_per_occurrence_witness :
    extractFields getAsInteger ['{', '1', '}', ' ', '{', '0', '}'] =
        some (Result.fields [Positional 1, Positional 0]) ∧
      extractFields getAsInteger ['{', '}', ' ', '{', '}'] =
        some (Result.fields [Automatic, Automatic]) :=
  ⟨C5_one_field_per_occurrence getAsInteger [] [(['1'], [' ']), (['0'], [])]
      [Positional 1, Positional 0] (by decide) (by decide) rfl,
   C5_one_field_per_occurrence getAsInteger [] [([], [' ']), ([], [])]
      [Automatic, Automatic] (by decide) (by decide) rfl⟩

/-- C10: field-body parsing fails exactly when the id part of the body (the text before its
first `:`) is non-empty and starts with a character that is neither a decimal digit nor a
letter; the error then carries the message "invalid format string: expected argument id or
':'" and offset 0; and the text after the `:` never matters: a body with a specifier parses
as the body without it. -/
theorem C10_field_parse_fails_iff (gai : Nat → List Char → Option Nat) (b : List Char) :
    ((∃ err, ReplacementField.parse gai b = .error err) ↔
        ∃ c tail, b.takeWhile (fun x => x != ':') = c :: tail ∧
          isdigit c = false ∧ isalpha c = false) ∧
      (∀ err, ReplacementField.parse gai b = .error err →
        err = { ErrorMsg := "invalid format string: expected argument id or ':'", Pos := 0 }) ∧
      (∀ spec : List Char, ':' ∉ b →
        ReplacementField.parse gai (b ++ ':' :: spec) = ReplacementField.parse gai b) := by
  refine ⟨⟨?_, ?_⟩, ?_, ?_⟩
  · rintro ⟨err, h⟩
    exact ((ReplacementField_parse_error_iff gai b err).mp h).1
  · intro h
    exact ⟨_, (ReplacementField_parse_error_iff gai b _).mpr ⟨h, rfl⟩⟩
  · intro err h
    exact ((ReplacementField_parse_error_iff gai b err).mp h).2
  · intro spec hb
    have htw : ∀ l : List Char, ':' ∉ l →
        (l ++ ':' :: spec).takeWhile (fun c => c != ':') = l := by
      intro l hl
      induction l with
      | nil => simp
      | cons x xs ih =>
        have hx : x ≠ ':' := fun e => hl (by simp [e])
        have hxs : ':' ∉ xs := fun m => hl (List.mem_cons_of_mem _ m)
        simp [List.takeWhile_cons, hx, ih hxs]
    have htw2 : ∀ l : List Char, ':' ∉ l → l.takeWhile (fun c => c != ':') = l := by
      intro l hl
      rw [List.takeWhile_eq_self_iff]
      intro x hx
      have : x ≠ ':' := fun e => hl (e ▸ hx)
      simpa using this
    cases b with
    | nil => simp [ReplacementField.parse, split, ArgId.parse, FormatSpecifiers.parse]
    | cons x xs =>
      have h1 := htw (x :: xs) hb
      have h2 := htw2 (x :: xs) hb
      rw [List.cons_append] at h1
      simp only [ReplacementField.parse, List.cons_append, List.isEmpty_cons, Bool.false_eq_true,
        if_false, split, FormatSpecifiers.parse, h1, h2]

/-- C10 witness: the body `_` fails with offset 0, the bodies `:_` and `x:_` are accepted. -/
theorem C10_field_parse_fails_iff_witness :
    ReplacementField.parse getAsInteger ['_'] =
        .error { ErrorMsg := "invalid format string: expected argument id or ':'", Pos := 0 } ∧
      ReplacementField.parse getAsInteger [':', '_'] = .ok Automatic ∧
      ReplacementField.parse getAsInteger ['x', ':', '_'] = .ok (Named ['x']) := by
  obtain ⟨err, herr⟩ := (C10_field_parse_fails_iff getAsInteger ['_']).1.mpr
    ⟨'_', [], by decide, by decide, by decide⟩
  have := (C10_field_parse_fails_iff getAsInteger ['_']).2.1 err herr
  refine ⟨by rw [herr, this], rfl, ?_⟩
  exact ((C10_field_parse_fails_iff getAsInteger ['x']).2.2 ['_'] (by decide)).trans rfl

/-! Claims C6 to C9 -/

/-- C6, evaluated at `{{{}`: after the escape the scanner has moved three characters, not
two, so the brace that opens `{}` is skipped and no field is found, while `{}` alone gives
one automatic field. -/
theorem C6_escape_consumes_three :
    extractFields getAsInteger ['{', '{', '{', '}'] = some (Result.fields []) ∧
      extractFields getAsInteger ['{', '}'] = some (Result.fields [Automatic]) := by
  decide

/-- C7, evaluated at `{{{{}}}}` and at `{{`: the first is rejected with a parse error at
offset 4, the second makes the scanner read beyond the end of the template. -/
theorem C7_escaped_braces_only :
    extractFields getAsInteger ['{', '{', '{', '{', '}', '}', '}', '}'] =
        some (Result.parseError
          { ErrorMsg := "invalid format string: expected argument id or ':'", Pos := 4 }) ∧
      extractFields getAsInteger ['{', '{'] = some Result.readPastEnd := by
  decide

/-- C8, as stated, fails: on `{0}}` the pair `}}` met inside the field does not close it;
the scanner steps over it and beyond the end of the template. -/
theorem C8_double_brace_counterexample :
    extractFields getAsInteger ['{', '0', '}', '}'] = some Result.readPastEnd ∧
      extractFields getAsInteger ['{', '0', '}', '}'] ≠ some (Result.fields [Positional 0]) := by
  decide

/-- C8 (amended): inside an open field a `}` that is not immediately followed by another `}`
closes the field: for every field body `b` without braces that the field parser accepts and
every text `r` without braces (the empty text included), `{b}r` is scanned successfully into
exactly one field, the field parsed from `b`. -/
theorem C8_single_brace_closes (gai : Nat → List Char → Option Nat) (b r : List Char)
    (f : ReplacementField) (hb : '{' ∉ b ∧ '}' ∉ b) (hr : '{' ∉ r ∧ '}' ∉ r)
    (hparse : ReplacementField.parse gai b = .ok f) :
    extractFields gai ('{' :: b ++ '}' :: r) = some (Result.fields [f]) := by
  have hrest : r.head? ≠ some '}' := by
    have := head?_fieldsTemplate r [] hr.2
    simpa [fieldsTemplate] using this
  rw [extractFields_eq_scanFrom, scanFrom_field gai b r 0 [] hb.1 hb.2 hrest, hparse]
  simp only []
  have := scanFrom_literal_run gai r [] (0 + b.length + 2) ([] ++ [f]) hr.1
  rw [List.append_nil] at this
  rw [this]
  simp [scanFrom]

/-- C8 witness: `{0}` and `{0} ` both give the single field Positional 0. -/
theorem C8_single_brace_closes_witness :
    extractFields getAsInteger ['{', '0', '}'] = some (Result.fields [Positional 0]) ∧
      extractFields getAsInteger ['{', '0', '}', ' '] = some (Result.fields [Positional 0]) :=
  ⟨C8_single_brace_closes getAsInteger ['0'] [] (Positional 0) (by decide) (by decide) rfl,
   C8_single_brace_closes getAsInteger ['0'] [' '] (Positional 0) (by decide) (by decide) rfl⟩

/-- C9, evaluated at `[Positional 0, Named "x"]` with one argument: the loop reads member
`Index` of the named field too. Whatever value `g` that read yields, the named field is not
ignored: here it is reported as out of range unless `g = 0`, and in general some field
sequence with a Positional and no Automatic field has findings that differ from those of the
sequence without its Named fields. -/
theorem C9_named_fields_not_ignored (punned : List Char → Nat) :
    matchReplacements punned [Positional 0, Named ['x']] 1 =
        (if 1 ≤ punned ['x'] then [Finding.OutOfRangePositional (punned ['x'] % 2 ^ 32)]
         else []) ∧
      matchReplacements punned [Positional 0] 1 = [] ∧
      ∃ (Fields : List ReplacementField) (n : Nat),
        (∃ f ∈ Fields, f.Id.Type_ = IdType.Index) ∧ (∀ f ∈ Fields, f.Id.Type_ ≠ IdType.None) ∧
        matchReplacements punned Fields n ≠
          matchReplacements punned (Fields.filter (fun f => f.Id.Type_ != IdType.Named)) n := by
  have h1 : matchReplacements punned [Positional 0, Named ['x']] 1 =
      (if 1 ≤ punned ['x'] then [Finding.OutOfRangePositional (punned ['x'] % 2 ^ 32)]
       else []) := by
    by_cases hg : 1 ≤ punned ['x']
    · simp [matchReplacements, matchReplacements.fieldLoop, matchReplacements.slotLoop,
        Positional, Named, IdUnion.readIndex, castUnsigned, hg, List.range_succ]
    · have h0 : punned ['x'] = 0 := by omega
      simp [matchReplacements, matchReplacements.fieldLoop, matchReplacements.slotLoop,
        Positional, Named, IdUnion.readIndex, castUnsigned, h0, List.range_succ]
  have h2 : matchReplacements punned [Positional 0] 1 = [] := by
    simp [matchReplacements, matchReplacements.fieldLoop, matchReplacements.slotLoop,
      Positional, IdUnion.readIndex, List.range_succ]
  refine ⟨h1, h2, ?_⟩
  by_cases hg : 1 ≤ punned ['x']
  · refine ⟨[Positional 0, Named ['x']], 1, ⟨Positional 0, by simp, rfl⟩, by simp [Positional, Named], ?_⟩
    have hfilter : List.filter (fun f => f.Id.Type_ != IdType.Named) [Positional 0, Named ['x']] =
        [Positional 0] := by
      simp [Positional, Named]
    rw [hfilter, h1, h2]
    simp [hg]
  · have h0 : punned ['x'] = 0 := by omega
    refine ⟨[Positional 1, Named ['x']], 2, ⟨Positional 1, by simp, rfl⟩, by simp [Positional, Named], ?_⟩
    have hfilter : List.filter (fun f => f.Id.Type_ != IdType.Named) [Positional 1, Named ['x']] =
        [Positional 1] := by
      simp [Positional, Named]
    rw [hfilter]
    simp [matchReplacements, matchReplacements.fieldLoop, matchReplacements.slotLoop,
      Positional, Named, IdUnion.readIndex, castUnsigned, h0, List.range_succ]

/-! Field bodies, continued -/

section FieldBodies

variable (gai : Nat → List Char → Option Nat)

theorem takeWhile_ne_colon_self (l : List Char) (hl : ':' ∉ l) :
    l.takeWhile (fun c => c != ':') = l := by
  rw [List.takeWhile_eq_self_iff]
  intro x hx
  have : x ≠ ':' := fun e => hl (e ▸ hx)
  simpa using this

theorem takeWhile_ne_colon_append (l spec : List Char) (hl : ':' ∉ l) :
    (l ++ ':' :: spec).takeWhile (fun c => c != ':') = l := by
  induction l with
  | nil => simp
  | cons x xs ih =>
    have hx : x ≠ ':' := fun e => hl (by simp [e])
    have hxs : ':' ∉ xs := fun m => hl (List.mem_cons_of_mem _ m)
    simp [List.takeWhile_cons, hx, ih hxs]

/-- The field parser looks at the id part only: the text before the first `:`. -/
theorem ReplacementField_parse_eq (b : List Char) :
    ReplacementField.parse gai b =
      match ArgId.parse gai (b.takeWhile (fun c => c != ':')) with
      | .ok Parsed => .ok { Id := Parsed }
      | .error err => .error err := by
  cases b with
  | nil => simp [ReplacementField.parse, ArgId.parse]
  | cons x xs =>
    simp only [ReplacementField.parse, List.isEmpty_cons, Bool.false_eq_true, if_false, split,
      FormatSpecifiers.parse]
    cases ArgId.parse gai (List.takeWhile (fun c => c != ':') (x :: xs)) <;> rfl

theorem isdigit_false_of_isalpha (c : Char) (h : isalpha c = true) : isdigit c = false := by
  simp only [isalpha, isdigit, Char.isAlpha, Char.isUpper, Char.isLower, Char.isDigit,
    Bool.or_eq_true, Bool.and_eq_true, decide_eq_true_eq, Bool.and_eq_false_imp] at h ⊢
  intro _
  simp only [decide_eq_false_iff_not]
  simp only [ge_iff_le, UInt32.le_def, BitVec.le_def] at *
  have e2 : (57 : UInt32).toBitVec.toNat = 57 := rfl
  have e3 : (65 : UInt32).toBitVec.toNat = 65 := rfl
  have e4 : (97 : UInt32).toBitVec.toNat = 97 := rfl
  omega

end FieldBodies

/-! Claims C11 to C13 -/

section DecimalIds

theorem digit_below_ten (c : Char) (h : c.isDigit = true) : c.toNat - 48 < 10 := by
  simp only [Char.isDigit, Bool.and_eq_true, decide_eq_true_eq, ge_iff_le, UInt32.le_def,
    BitVec.le_def] at h
  have e2 : (57 : UInt32).toBitVec.toNat = 57 := rfl
  have e3 : c.toNat = c.val.toBitVec.toNat := rfl
  omega

theorem colon_not_digit (d : List Char) (hdig : ∀ c ∈ d, c.isDigit = true) : ':' ∉ d := by
  intro h
  have := hdig _ h
  revert this
  decide

/-- The modelled conversion on a text that starts with a decimal numeral followed by a
character that is not a digit (or by nothing): the value of the numeral. -/
theorem getAsInteger_numeral_prefix (d rest : List Char) (hne : d ≠ [])
    (hdig : ∀ c ∈ d, c.isDigit = true) (hrest : ∀ c, rest.head? = some c → c.isDigit = false)
    (hfit : decimalValue d < 2 ^ 64) :
    getAsInteger 10 (d ++ rest) = some (decimalValue d) := by
  have htw : (d ++ rest).takeWhile (fun c => c.isDigit && decide (c.toNat - 48 < 10)) = d := by
    rw [List.takeWhile_append_of_pos]
    · cases rest with
      | nil => simp
      | cons x xs =>
        have := hrest x rfl
        simp [List.takeWhile_cons, this]
    · intro c hc
      simp [hdig c hc, digit_below_ten c (hdig c hc)]
  have hemp : d.isEmpty = false := by
    cases d with
    | nil => exact absurd rfl hne
    | cons _ _ => rfl
  simp only [getAsInteger, htw, hemp, Bool.false_eq_true, if_false]
  simp only [decimalValue] at hfit ⊢
  rw [if_pos hfit]

/-- What the code does with an id part that starts with a digit, whatever the conversion: the
reference is Positional, its index the value the conversion stored, zero when it reports
failure; a specifier after the id part changes nothing. -/
theorem ReplacementField_parse_digit_first (gai : Nat → List Char → Option Nat)
    (c : Char) (tail spec : List Char) (hc : isdigit c = true) (hcolon : ':' ∉ c :: tail) :
    ReplacementField.parse gai (c :: tail) =
        .ok (Positional ((gai 10 (c :: tail)).getD 0)) ∧
      ReplacementField.parse gai (c :: tail ++ ':' :: spec) =
        .ok (Positional ((gai 10 (c :: tail)).getD 0)) := by
  have h1 : ArgId.parse gai (c :: tail) =
      .ok { Id := .Index ((gai 10 (c :: tail)).getD 0), Type_ := .Index } := by
    simp [ArgId.parse, hc]
  constructor
  · rw [ReplacementField_parse_eq, takeWhile_ne_colon_self _ hcolon, h1]
    rfl
  · rw [ReplacementField_parse_eq, takeWhile_ne_colon_append _ _ hcolon, h1]
    rfl

end DecimalIds

/-- C11: for every decimal numeral `d` (a non-empty run of decimal digits, leading zeros
allowed) whose value is below 2^64 and every specifier text `s`, the field bodies `d` and
`d:s` are both parsed successfully into the reference Positional with that value. -/
theorem C11_decimal_ids_positional (d s : List Char) (hne : d ≠ [])
    (hdig : ∀ c ∈ d, c.isDigit = true) (hfit : decimalValue d < 2 ^ 64) :
    ReplacementField.parse getAsInteger d = .ok (Positional (decimalValue d)) ∧
      ReplacementField.parse getAsInteger (d ++ ':' :: s) =
        .ok (Positional (decimalValue d)) := by
  obtain ⟨c, tail, rfl⟩ := List.exists_cons_of_ne_nil hne
  have hconv := getAsInteger_numeral_prefix (c :: tail) [] hne hdig (by simp) hfit
  rw [List.append_nil] at hconv
  have := ReplacementField_parse_digit_first getAsInteger c tail s
    (hdig c (List.mem_cons_self _ _)) (colon_not_digit _ hdig)
  rw [hconv] at this
  exact this

/-- C11 witness: the bodies `12`, `007` and `12:>8` give Positional 12, 7 and 12. -/
theorem C11_decimal_ids_positional_witness :
    ReplacementField.parse getAsInteger ['1', '2'] = .ok (Positional 12) ∧
      ReplacementField.parse getAsInteger ['0', '0', '7'] = .ok (Positional 7) ∧
      ReplacementField.parse getAsInteger ['1', '2', ':', '>', '8'] = .ok (Positional 12) :=
  ⟨(C11_decimal_ids_positional ['1', '2'] [] (by decide) (by decide) (by decide)).1,
   (C11_decimal_ids_positional ['0', '0', '7'] [] (by decide) (by decide) (by decide)).1,
   (C11_decimal_ids_positional ['1', '2'] ['>', '8'] (by decide) (by decide) (by decide)).2⟩

/-- C12: a field body whose id part (the text before its first `:`) is empty is parsed into
the reference Automatic, whatever follows the colon; a body whose id part starts with a letter
is parsed into the reference Named that carries exactly the id part. -/
theorem C12_non_numeric_ids (gai : Nat → List Char → Option Nat) (b : List Char) :
    (b.takeWhile (fun x => x != ':') = [] → ReplacementField.parse gai b = .ok Automatic) ∧
      (∀ c tail, b.takeWhile (fun x => x != ':') = c :: tail → isalpha c = true →
        ReplacementField.parse gai b = .ok (Named (c :: tail))) := by
  constructor
  · intro h
    rw [ReplacementField_parse_eq, h]
    rfl
  · intro c tail h hc
    rw [ReplacementField_parse_eq, h]
    simp [ArgId.parse, isdigit_false_of_isalpha c hc, hc, Named]

/-- C12 witness: the empty body and the bodies `:` and `:_` give Automatic; the bodies `ab`
and `ab:_` give Named "ab". -/
theorem C12_non_numeric_ids_witness :
    ReplacementField.parse getAsInteger [] = .ok Automatic ∧
      ReplacementField.parse getAsInteger [':'] = .ok Automatic ∧
      ReplacementField.parse getAsInteger [':', '_'] = .ok Automatic ∧
      ReplacementField.parse getAsInteger ['a', 'b'] = .ok (Named ['a', 'b']) ∧
      ReplacementField.parse getAsInteger ['a', 'b', ':', '_'] = .ok (Named ['a', 'b']) :=
  ⟨(C12_non_numeric_ids getAsInteger []).1 rfl,
   (C12_non_numeric_ids getAsInteger [':']).1 rfl,
   (C12_non_numeric_ids getAsInteger [':', '_']).1 rfl,
   (C12_non_numeric_ids getAsInteger ['a', 'b']).2 'a' ['b'] rfl rfl,
   (C12_non_numeric_ids getAsInteger ['a', 'b', ':', '_']).2 'a' ['b'] rfl rfl⟩

/-- C13: for every number of supplied arguments, a field sequence without any Automatic or
Positional field, that is the empty sequence or a sequence of Named fields only, yields no
findings. -/
theorem C13_named_only_no_findings (punned : List Char → Nat) (Fields : List ReplacementField)
    (n : Nat) (hnamed : ∀ f ∈ Fields, f.Id.Type_ = IdType.Named) :
    matchReplacements punned Fields n = [] := by
  have hpos : Fields.any (fun field => field.Id.Type_ == IdType.Index) = false := by
    simp only [List.any_eq_false, beq_iff_eq]
    intro f hf h
    rw [hnamed f hf] at h
    cases h
  have hdef : Fields.any (fun field => field.Id.Type_ == IdType.None) = false := by
    simp only [List.any_eq_false, beq_iff_eq]
    intro f hf h
    rw [hnamed f hf] at h
    cases h
  unfold matchReplacements
  simp [hpos, hdef]

/-- C13 witness: the empty sequence and the fields of `{x} {y}`, against any number of
arguments. -/
theorem C13_named_only_no_findings_witness :
    matchReplacements (fun _ => 0) [] 3 = [] ∧
      matchReplacements (fun _ => 0) [Named ['x'], Named ['y']] 0 = [] ∧
      matchReplacements (fun _ => 0) [Named ['x'], Named ['y']] 5 = [] :=
  ⟨C13_named_only_no_findings (fun _ => 0) [] 3 (by simp),
   C13_named_only_no_findings (fun _ => 0) [Named ['x'], Named ['y']] 0 (by simp [Named]),
   C13_named_only_no_findings (fun _ => 0) [Named ['x'], Named ['y']] 5 (by simp [Named])⟩

/-! Claims C15 to C18 -/

/-- C15: a template without any `{` (it may hold any number of `}`) is scanned successfully
into the empty field sequence. -/
theorem C15_stray_closing_brace_is_text (gai : Nat → List Char → Option Nat) (t : List Char)
    (ht : '{' ∉ t) :
    extractFields gai t = some (Result.fields []) := by
  have := scanFrom_literal_run gai t [] 0 [] ht
  rw [List.append_nil] at this
  rw [extractFields_eq_scanFrom, this]
  simp [scanFrom]

/-- C15 witness: the templates `}`, `a}}b}` and the empty template give no field. -/
theorem C15_stray_closing_brace_is_text_witness :
    extractFields getAsInteger ['}'] = some (Result.fields []) ∧
      extractFields getAsInteger ['a', '}', '}', 'b', '}'] = some (Result.fields []) ∧
      extractFields getAsInteger [] = some (Result.fields []) :=
  ⟨C15_stray_closing_brace_is_text getAsInteger ['}'] (by decide),
   C15_stray_closing_brace_is_text getAsInteger ['a', '}', '}', 'b', '}'] (by decide),
   C15_stray_closing_brace_is_text getAsInteger [] (by decide)⟩

/-- C16, as stated, fails: `{0` gives no field while `{0}` gives Positional 0, and `{_` is
accepted with no field while `{_}` is rejected at offset 1. -/
theorem C16_open_field_counterexample :
    extractFields getAsInteger ['{', '0'] = some (Result.fields []) ∧
      extractFields getAsInteger ['{', '0', '}'] = some (Result.fields [Positional 0]) ∧
      extractFields getAsInteger ['{', '_'] = some (Result.fields []) ∧
      extractFields getAsInteger ['{', '_', '}'] =
        some (Result.parseError
          { ErrorMsg := "invalid format string: expected argument id or ':'", Pos := 1 }) ∧
      extractFields getAsInteger ['{', '0'] ≠ extractFields getAsInteger ['{', '0', '}'] := by
  decide

/-- C16 (amended): a field left open at the end of the input is dropped: for every field body
`b` without braces, valid or not, the template `{b` is scanned successfully into the empty
field sequence; the body is never handed to the field parser. -/
theorem C16_open_field_dropped (gai : Nat → List Char → Option Nat) (b : List Char)
    (hb1 : '{' ∉ b) (hb2 : '}' ∉ b) :
    extractFields gai ('{' :: b) = some (Result.fields []) := by
  have hhead : b.head? ≠ some '{' := by
    cases b with
    | nil => simp
    | cons c b =>
      simp only [List.head?_cons, ne_eq, Option.some.injEq]
      intro e
      exact hb1 (by simp [e])
  have hrun := scanFrom_body_run gai b [] (0 + 1) 0 [] [] hb2
  rw [List.append_nil] at hrun
  rw [extractFields_eq_scanFrom, scanFrom_open gai _ _ _ hhead, hrun]
  simp [scanFrom]

/-- C16 witness: `{0`, `{_` and `{` give no field and no error. -/
theorem C16_open_field_dropped_witness :
    extractFields getAsInteger ['{', '0'] = some (Result.fields []) ∧
      extractFields getAsInteger ['{', '_'] = some (Result.fields []) ∧
      extractFields getAsInteger ['{'] = some (Result.fields []) :=
  ⟨C16_open_field_dropped getAsInteger ['0'] (by decide) (by decide),
   C16_open_field_dropped getAsInteger ['_'] (by decide) (by decide),
   C16_open_field_dropped getAsInteger [] (by decide) (by decide)⟩

/-- C17: an id part made of a decimal numeral `ds` with value below 2^64 followed by a
character `c` that is not a digit and by any further text, none of it a `:`, is parsed
successfully into the reference Positional with the value of `ds`; the same holds when a
specifier follows the id part. -/
theorem C17_trailing_characters_ignored (ds tail s : List Char) (c : Char) (hne : ds ≠ [])
    (hdig : ∀ x ∈ ds, x.isDigit = true) (hfit : decimalValue ds < 2 ^ 64)
    (hc : c.isDigit = false) (hcolon : ':' ∉ c :: tail) :
    ReplacementField.parse getAsInteger (ds ++ c :: tail) = .ok (Positional (decimalValue ds)) ∧
      ReplacementField.parse getAsInteger (ds ++ c :: tail ++ ':' :: s) =
        .ok (Positional (decimalValue ds)) := by
  obtain ⟨d0, dtail, rfl⟩ := List.exists_cons_of_ne_nil hne
  have hconv := getAsInteger_numeral_prefix (d0 :: dtail) (c :: tail) hne hdig
    (by intro x hx; simp only [List.head?_cons, Option.some.injEq] at hx; rw [← hx]; exact hc) hfit
  have hcol : ':' ∉ d0 :: (dtail ++ c :: tail) := by
    intro h
    rw [← List.cons_append, List.mem_append] at h
    rcases h with h | h
    · exact colon_not_digit _ hdig h
    · exact hcolon h
  have := ReplacementField_parse_digit_first getAsInteger d0 (dtail ++ c :: tail) s
    (hdig d0 (List.mem_cons_self _ _)) hcol
  rw [← List.cons_append, hconv] at this
  exact this

/-- C17 witness: the body `3x` of `{3x}` gives Positional 3, and so does `3x:_`. -/
theorem C17_trailing_characters_ignored_witness :
    ReplacementField.parse getAsInteger ['3', 'x'] = .ok (Positional 3) ∧
      ReplacementField.parse getAsInteger ['3', 'x', ':', '_'] = .ok (Positional 3) :=
  C17_trailing_characters_ignored ['3'] [] ['_'] 'x' (by decide) (by decide) (by decide)
    (by decide) (by decide)

/-- C18, evaluated at `{{` and at `{0}}`: an escape branch adds 2 to `It` and the loop adds
1 more, so the iteration at offset 0 of `{{` hands over to an iteration at offset 3, beyond
the end at 2; the guard `It != Str.end()` does not stop it and the run ends in a read outside
the template. The same happens at the `}}` of `{0}}`, from offset 2 to offset 5 with the end
at 4. -/
theorem C18_scanner_leaves_template (gai : Nat → List Char → Option Nat) (fuel : Nat) :
    extractFields.loop gai ['{', '{'] (fuel + 1) 0 false 0 [] =
        extractFields.loop gai ['{', '{'] fuel (0 + 2 + 1) false 0 [] ∧
      ['{', '{'].length < 0 + 2 + 1 ∧
      extractFields gai ['{', '{'] = some Result.readPastEnd ∧
      extractFields.loop gai ['{', '0', '}', '}'] (fuel + 1) 2 true 0 [] =
        extractFields.loop gai ['{', '0', '}', '}'] fuel (2 + 2 + 1) true 0 [] ∧
      ['{', '0', '}', '}'].length < 2 + 2 + 1 ∧
      extractFields gai ['{', '0', '}', '}'] = some Result.readPastEnd := by
  refine ⟨?_, by decide, ?_, ?_, by decide, ?_⟩
  · simp [extractFields.loop]
  · rw [extractFields_eq_scanFrom]
    rfl
  · simp [extractFields.loop]
  · rw [extractFields_eq_scanFrom]
    rfl

/-! Claim C19 -/

section FindingShape

variable (punned : List Char → Nat)

theorem fieldLoop_shape (n : Nat) (Fields : List ReplacementField) :
    ∀ (Used : List Bool) (Diags : List Finding),
      ∃ oor : List Nat,
        (matchReplacements.fieldLoop punned n Fields Used Diags).1 =
            Diags ++ oor.map Finding.OutOfRangePositional ∧
          oor.length ≤ Fields.length ∧
          (matchReplacements.fieldLoop punned n Fields Used Diags).2.length = Used.length := by
  induction Fields with
  | nil =>
    intro Used Diags
    exact ⟨[], by simp [matchReplacements.fieldLoop], by simp, by simp [matchReplacements.fieldLoop]⟩
  | cons f rest ih =>
    intro Used Diags
    simp only [matchReplacements.fieldLoop]
    split
    · obtain ⟨oor, h1, h2, h3⟩ := ih Used
        (Diags ++ [Finding.OutOfRangePositional (castUnsigned (f.Id.Id.readIndex punned))])
      refine ⟨castUnsigned (f.Id.Id.readIndex punned) :: oor, ?_, ?_, h3⟩
      · rw [h1]; simp
      · simp only [List.length_cons]; omega
    · obtain ⟨oor, h1, h2, h3⟩ := ih (Used.set (f.Id.Id.readIndex punned) true) Diags
      refine ⟨oor, h1, ?_, ?_⟩
      · simp only [List.length_cons]; omega
      · rw [h3]; simp

theorem slotLoop_shape (Used : List Bool) :
    ∃ slots : List Nat,
      matchReplacements.slotLoop Used = slots.map Finding.UnusedArgument ∧
        slots.Pairwise (fun a b => a < b) ∧ ∀ s ∈ slots, s < Used.length := by
  refine ⟨(List.range Used.length).filter (fun I => !(Used.getD I true)), rfl, ?_, ?_⟩
  · exact List.Pairwise.sublist (List.filter_sublist _) (List.pairwise_lt_range _)
  · intro s hs
    exact List.mem_range.mp (List.mem_filter.mp hs).1

end FindingShape

/-- C19: for every field sequence and every number `n` of supplied arguments the findings
are (a) none, or (b) exactly `[MixedIndexing]`, or (c) exactly one `ArgumentCountMismatch`, or
(d) some `OutOfRangePositional` findings, at most as many as there are fields, followed by
`UnusedArgument` findings whose slots are strictly ascending (hence distinct) and all below
`n`. -/
theorem C19_finding_kinds_do_not_mix (punned : List Char → Nat)
    (Fields : List ReplacementField) (n : Nat) :
    matchReplacements punned Fields n = [] ∨
      matchReplacements punned Fields n = [Finding.MixedIndexing] ∨
      (∃ e a, matchReplacements punned Fields n = [Finding.ArgumentCountMismatch e a]) ∨
      (∃ oor slots : List Nat,
        matchReplacements punned Fields n =
            oor.map Finding.OutOfRangePositional ++ slots.map Finding.UnusedArgument ∧
          oor.length ≤ Fields.length ∧ slots.Pairwise (fun a b => a < b) ∧
          ∀ s ∈ slots, s < n) := by
  unfold matchReplacements
  by_cases hemp : Fields.isEmpty = true
  · left; simp [hemp]
  · simp only [hemp, Bool.false_eq_true, if_false]
    by_cases hpos : Fields.any (fun field => field.Id.Type_ == IdType.Index) = true
    · by_cases hdef : Fields.any (fun field => field.Id.Type_ == IdType.None) = true
      · right; left; simp [hpos, hdef]
      · right; right; right
        simp only [hpos, hdef, Bool.and_false, Bool.false_eq_true, if_false, if_true]
        obtain ⟨oor, h1, h2, h3⟩ :=
          fieldLoop_shape punned n Fields (List.replicate n false) []
        obtain ⟨slots, g1, g2, g3⟩ := slotLoop_shape
          (matchReplacements.fieldLoop punned n Fields (List.replicate n false) []).2
        refine ⟨oor, slots, ?_, h2, g2, ?_⟩
        · rw [h1, g1]; simp
        · intro s hs
          have := g3 s hs
          rw [h3, List.length_replicate] at this
          exact this
    · simp only [hpos, Bool.false_and, Bool.false_eq_true, if_false]
      by_cases hdef : Fields.any (fun field => field.Id.Type_ == IdType.None) = true
      · simp only [hdef, if_true]
        by_cases hlen : Fields.length = n
        · left; simp [hlen]
        · right; right; left
          exact ⟨castUnsigned Fields.length, castUnsigned n, by simp [hlen]⟩
      · left; simp [hdef]

/-! Claim C14 -/

section Permutations

variable (gai : Nat → List Char → Option Nat)

theorem digitChar_isDigit : ∀ m, m < 10 → (Nat.digitChar m).isDigit = true := by decide

theorem toDigitsCore_isDigit (fuel : Nat) :
    ∀ (n : Nat) (ds : List Char), (∀ c ∈ ds, c.isDigit = true) →
      ∀ c ∈ Nat.toDigitsCore 10 fuel n ds, c.isDigit = true := by
  induction fuel with
  | zero => intro n ds h; simpa [Nat.toDigitsCore] using h
  | succ fuel ih =>
    intro n ds h
    have hd : ∀ c ∈ Nat.digitChar (n % 10) :: ds, c.isDigit = true := by
      intro c hc
      rcases List.mem_cons.mp hc with e | m
      · rw [e]; exact digitChar_isDigit _ (Nat.mod_lt _ (by decide))
      · exact h c m
    simp only [Nat.toDigitsCore]
    split
    · exact hd
    · exact ih _ _ hd

theorem toDigits_isDigit (n : Nat) : ∀ c ∈ Nat.toDigits 10 n, c.isDigit = true :=
  toDigitsCore_isDigit (n + 1) n [] (by simp)

theorem toDigits_ne_nil (n : Nat) : Nat.toDigits 10 n ≠ [] := by
  unfold Nat.toDigits
  simp only [Nat.toDigitsCore]
  split
  · simp
  · intro h
    have := congrArg List.length h
    rw [Nat.toDigitsCore_lens_eq] at this
    simp at this

theorem brace_not_digit (d : List Char) (hdig : ∀ c ∈ d, c.isDigit = true) :
    '{' ∉ d ∧ '}' ∉ d := by
  constructor
  · intro h
    have := hdig _ h
    revert this
    decide
  · intro h
    have := hdig _ h
    revert this
    decide

/-- The field parser on the decimal rendering of `i`, for a conversion that reads it as `i`. -/
theorem ReplacementField_parse_toDigits (i : Nat) (hconv : gai 10 (Nat.toDigits 10 i) = some i) :
    ReplacementField.parse gai (Nat.toDigits 10 i) = .ok (Positional i) := by
  obtain ⟨c, tail, hct⟩ := List.exists_cons_of_ne_nil (toDigits_ne_nil i)
  have hdig := toDigits_isDigit i
  rw [hct] at hdig hconv
  have := (ReplacementField_parse_digit_first gai c tail []
    (hdig c (List.mem_cons_self _ _)) (colon_not_digit _ hdig)).1
  rw [hconv] at this
  rw [hct]
  exact this

theorem scanFrom_spacedTemplate (bs : List (List Char)) :
    ∀ (It : Nat) (Fs fs : List ReplacementField),
      (∀ b ∈ bs, '{' ∉ b ∧ '}' ∉ b) →
      bs.map (fun b => ReplacementField.parse gai b) = fs.map Except.ok →
      scanFrom gai (spacedTemplate bs) It none Fs = Result.fields (Fs ++ fs) := by
  induction bs with
  | nil =>
    intro It Fs fs _ hfs
    cases fs with
    | nil => simp [spacedTemplate, scanFrom]
    | cons f fs => simp at hfs
  | cons b bs ih =>
    intro It Fs fs hbs hfs
    cases fs with
    | nil => simp at hfs
    | cons f fs =>
      simp only [List.map_cons, List.cons.injEq] at hfs
      obtain ⟨hb1, hb2⟩ := hbs b (List.mem_cons_self _ _)
      cases bs with
      | nil =>
        have hfs2 : fs = [] := by
          cases fs with
          | nil => rfl
          | cons g gs => simp at hfs
        subst hfs2
        simp only [spacedTemplate]
        have := scanFrom_field gai b [] It Fs hb1 hb2 (by simp)
        rw [this, hfs.1]
        simp [scanFrom]
      | cons b2 bs2 =>
        simp only [spacedTemplate]
        have := scanFrom_field gai b (' ' :: spacedTemplate (b2 :: bs2)) It Fs hb1 hb2
          (by simp)
        rw [this, hfs.1]
        simp only []
        rw [scanFrom_literal gai _ _ _ _ (by decide),
          ih _ _ fs (fun q hq => hbs q (List.mem_cons_of_mem _ hq)) hfs.2]
        simp

end Permutations

section DecimalRendering

theorem digitChar_value : ∀ m, m < 10 → (Nat.digitChar m).toNat - 48 = m := by decide

theorem foldl_toDigitsCore (fuel : Nat) :
    ∀ (n : Nat) (ds : List Char), n < fuel →
      (Nat.toDigitsCore 10 fuel n ds).foldl (fun acc c => acc * 10 + (c.toNat - 48)) 0 =
        ds.foldl (fun acc c => acc * 10 + (c.toNat - 48)) n := by
  induction fuel with
  | zero => intro n ds h; omega
  | succ fuel ih =>
    intro n ds h
    have hv := digitChar_value (n % 10) (Nat.mod_lt _ (by decide))
    simp only [Nat.toDigitsCore]
    split
    · rename_i h0
      have hn : n % 10 = n := by omega
      simp only [List.foldl_cons, hv, Nat.zero_mul, Nat.zero_add]
      rw [hn]
    · rename_i h0
      rw [ih (n / 10) _ (by omega)]
      simp only [List.foldl_cons, hv]
      congr 1
      omega

theorem decimalValue_toDigits (n : Nat) : decimalValue (Nat.toDigits 10 n) = n := by
  unfold decimalValue Nat.toDigits
  rw [foldl_toDigitsCore (n + 1) n [] (by omega)]
  rfl

/-- The modelled conversion reads the decimal rendering of every index below 2^64 as that
index. -/
theorem getAsInteger_toDigits (i : Nat) (hi : i < 2 ^ 64) :
    getAsInteger 10 (Nat.toDigits 10 i) = some i := by
  have := getAsInteger_numeral_prefix (Nat.toDigits 10 i) [] (toDigits_ne_nil i)
    (toDigits_isDigit i) (by simp) (by rw [decimalValue_toDigits]; exact hi)
  rw [List.append_nil, decimalValue_toDigits] at this
  exact this

end DecimalRendering

section PositionalAnalysis

variable (punned : List Char → Nat)

/-- The positional branch on a sequence of Positional fields. -/
theorem matchReplacements_map_Positional (idxs : List Nat) (n : Nat) (hne : idxs ≠ []) :
    matchReplacements punned (idxs.map Positional) n =
      (idxs.filter (fun i => decide (n ≤ i))).map
          (fun i => Finding.OutOfRangePositional (i % 2 ^ 32)) ++
        ((List.range n).filter (fun s => decide (s ∉ idxs))).map Finding.UnusedArgument := by
  obtain ⟨i, rest, rfl⟩ := List.exists_cons_of_ne_nil hne
  have hpos : (List.map Positional (i :: rest)).any (fun field => field.Id.Type_ == IdType.Index)
      = true := by simp [Positional]
  have hdef : (List.map Positional (i :: rest)).any (fun field => field.Id.Type_ == IdType.None)
      = false := by simp [Positional]
  unfold matchReplacements
  simp only [hpos, hdef]
  rw [fieldLoop_Positional]
  simp only [List.isEmpty_cons, List.map_cons, Bool.false_eq_true, if_false, Bool.and_false,
    if_true, List.nil_append]
  rw [slotLoop_markFold]

theorem matchReplacements_permutation (p : List Nat) (n : Nat) (hn : 1 ≤ n)
    (hperm : p.Perm (List.range n)) :
    matchReplacements punned (p.map Positional) n = [] := by
  have hmem : ∀ i, i ∈ p ↔ i < n := by
    intro i
    rw [hperm.mem_iff, List.mem_range]
  have hne : p ≠ [] := by
    intro h
    have := (hmem 0).mpr (by omega)
    rw [h] at this
    cases this
  rw [matchReplacements_map_Positional punned p n hne]
  have h1 : p.filter (fun i => decide (n ≤ i)) = [] := by
    rw [List.filter_eq_nil_iff]
    intro i hi
    have := (hmem i).mp hi
    simp only [decide_eq_true_eq]
    omega
  have h2 : (List.range n).filter (fun s => decide (s ∉ p)) = [] := by
    rw [List.filter_eq_nil_iff]
    intro s hs
    have := (hmem s).mpr (List.mem_range.mp hs)
    simp [this]
  rw [h1, h2]
  rfl

end PositionalAnalysis

/-- C14: for every `n >= 1`, every permutation `p` of `0, ..., n-1` and every integer
conversion that reads the decimal rendering of each index below `n` as that index, the
template `{p(0)} {p(1)} ... {p(n-1)}` (decimal indices, one space between fields) is scanned
successfully into the fields Positional p(0), ..., Positional p(n-1), and checking these
fields against `n` supplied arguments yields no findings. -/
theorem C14_permutation_accepted (gai : Nat → List Char → Option Nat)
    (punned : List Char → Nat) (n : Nat) (p : List Nat) (hn : 1 ≤ n)
    (hperm : p.Perm (List.range n))
    (hconv : ∀ i, i < n → gai 10 (Nat.toDigits 10 i) = some i) :
    extractFields gai (spacedTemplate (p.map (Nat.toDigits 10))) =
        some (Result.fields (p.map Positional)) ∧
      matchReplacements punned (p.map Positional) n = [] := by
  refine ⟨?_, matchReplacements_permutation punned p n hn hperm⟩
  have hmem : ∀ i, i ∈ p → i < n := by
    intro i hi
    exact List.mem_range.mp (hperm.mem_iff.mp hi)
  rw [extractFields_eq_scanFrom,
    scanFrom_spacedTemplate gai (p.map (Nat.toDigits 10)) 0 [] (p.map Positional)]
  · simp
  · intro b hb
    obtain ⟨i, _, rfl⟩ := List.mem_map.mp hb
    exact brace_not_digit _ (toDigits_isDigit i)
  · rw [List.map_map, List.map_map]
    apply List.map_congr_left
    intro i hi
    exact ReplacementField_parse_toDigits gai i (hconv i (hmem i hi))

/-- C14 witness: `{1} {0}` with two arguments, and `{2} {0} {1}` with three. -/
theorem C14_permutation_accepted_witness :
    (extractFields getAsInteger ['{', '1', '}', ' ', '{', '0', '}'] =
        some (Result.fields [Positional 1, Positional 0]) ∧
      matchReplacements (fun _ => 0) [Positional 1, Positional 0] 2 = []) ∧
    (extractFields getAsInteger ['{', '2', '}', ' ', '{', '0', '}', ' ', '{', '1', '}'] =
        some (Result.fields [Positional 2, Positional 0, Positional 1]) ∧
      matchReplacements (fun _ => 0) [Positional 2, Positional 0, Positional 1] 3 = []) :=
  ⟨C14_permutation_accepted getAsInteger (fun _ => 0) 2 [1, 0] (by decide) (by decide)
      (by intro i hi; interval_cases i <;> rfl),
   C14_permutation_accepted getAsInteger (fun _ => 0) 3 [2, 0, 1] (by decide) (by decide)
      (by intro i hi; interval_cases i <;> rfl)⟩
